import Mathlib

/-!
Verification of the UPB (Universal Powerline Bus) PIM driver core
(`upb/upb.go` of mdempsky/castle1724) against its natural-language
specification.

Bytes are modelled as natural numbers; wherever the Go code performs
8-bit (`byte`) arithmetic, the embedding takes the result mod 256.
Strings on the serial line are modelled as lists of characters.
-/

set_option maxHeartbeats 1000000
set_option maxRecDepth 10000

namespace Castle

/-- `Checksum` from upb.go (lines 205-215): sum all bytes with wrapping
8-bit addition, then take the two's complement of the sum truncated to
8 bits. -/
def Checksum (msg : List Nat) : Nat :=
  (256 - msg.foldl (fun x c => (x + c) % 256) 0) % 256

/-- Checksum validation as performed by the `'U'` (message report) branch
of `serve` (upb.go lines 139-142): the trailing byte must equal the
checksum computed over the preceding bytes. -/
def isValidChecksum (m : List Nat) : Bool :=
  m.getLast? == some (Checksum m.dropLast)

/-- Flip bit `b` of the byte `v` (the single-bit corruption considered by
the spec's checksum property): clear the bit when it is set, set it when
it is clear. -/
def flipBit (b v : Nat) : Nat :=
  if v.testBit b then v - 2 ^ b else v + 2 ^ b

/-- Flip bit `b` of the byte at position `i` of a byte sequence. -/
def flipAt : List Nat → Nat → Nat → List Nat
  | [], _, _ => []
  | v :: rest, 0, b => flipBit b v :: rest
  | v :: rest, i + 1, b => v :: flipAt rest i b

lemma foldl_add_mod (l : List Nat) :
    ∀ a, a < 256 → l.foldl (fun x c => (x + c) % 256) a = (a + l.sum) % 256 := by
  induction l with
  | nil => intro a ha; simp [Nat.mod_eq_of_lt ha]
  | cons c rest ih =>
    intro a ha
    have h1 : (a + c) % 256 < 256 := Nat.mod_lt _ (by norm_num)
    simp only [List.foldl_cons, List.sum_cons, ih _ h1, Nat.mod_add_mod]
    ring_nf

lemma Checksum_eq_sum (msg : List Nat) :
    Checksum msg = (256 - msg.sum % 256) % 256 := by
  unfold Checksum
  rw [foldl_add_mod msg 0 (by norm_num)]
  simp

lemma flipBit_ne (b v : Nat) : flipBit b v ≠ v := by
  unfold flipBit
  split
  · rename_i h
    have hge := Nat.testBit_implies_ge h
    have hpos : 0 < 2 ^ b := Nat.pos_pow_of_pos b (by norm_num)
    omega
  · have hpos : 0 < 2 ^ b := Nat.pos_pow_of_pos b (by norm_num)
    omega

lemma flipAt_sum (b : Nat) :
    ∀ (l : List Nat) (i : Nat), i < l.length →
      (flipAt l i b).sum + 2 ^ b = l.sum ∨ (flipAt l i b).sum = l.sum + 2 ^ b := by
  intro l
  induction l with
  | nil => intro i hi; simp at hi
  | cons v rest ih =>
    intro i hi
    match i with
    | 0 =>
      simp only [flipAt, List.sum_cons]
      unfold flipBit
      split
      · rename_i h
        have hge := Nat.testBit_implies_ge h
        left; omega
      · right; omega
    | i + 1 =>
      have hi' : i < rest.length := by simpa using hi
      rcases ih i hi' with h | h
      · left; simp only [flipAt, List.sum_cons]; omega
      · right; simp only [flipAt, List.sum_cons]; omega

lemma flipAt_append_left (b : Nat) :
    ∀ (l l2 : List Nat) (i : Nat), i < l.length →
      flipAt (l ++ l2) i b = flipAt l i b ++ l2 := by
  intro l
  induction l with
  | nil => intro l2 i hi; simp at hi
  | cons v rest ih =>
    intro l2 i hi
    match i with
    | 0 => simp [flipAt]
    | i + 1 =>
      have hi' : i < rest.length := by simpa using hi
      simp [flipAt, ih l2 i hi']

lemma flipAt_append_last (b a : Nat) :
    ∀ (l : List Nat), flipAt (l ++ [a]) l.length b = l ++ [flipBit b a] := by
  intro l
  induction l with
  | nil => simp [flipAt]
  | cons v rest ih => simp [flipAt, ih]

lemma checksum_sum_shift_ne (s t : Nat) (ht0 : 0 < t) (ht : t < 256) :
    (256 - (s + t) % 256) % 256 ≠ (256 - s % 256) % 256 := by
  rw [Nat.add_mod]
  have h1 : s % 256 < 256 := Nat.mod_lt _ (by norm_num)
  have h2 : t % 256 = t := Nat.mod_eq_of_lt ht
  rw [h2]
  generalize s % 256 = a at *
  omega

/-- C1. Appending `Checksum m` to any byte sequence `m` yields a sequence
accepted by the checksum validation, and flipping any single bit
(position `i` in the extended sequence, bit `b < 8`) makes the
validation fail. -/
theorem checksum_append_valid_flip_invalid (m : List Nat) (i b : Nat)
    (hi : i < m.length + 1) (hb : b < 8) :
    isValidChecksum (m ++ [Checksum m]) = true ∧
    isValidChecksum (flipAt (m ++ [Checksum m]) i b) = false := by
  have hpos : 0 < 2 ^ b := Nat.pos_pow_of_pos b (by norm_num)
  have hlt : 2 ^ b < 256 := by
    calc 2 ^ b ≤ 2 ^ 7 := Nat.pow_le_pow_right (by norm_num) (by omega)
    _ < 256 := by norm_num
  constructor
  · simp [isValidChecksum, List.getLast?_concat, List.dropLast_concat]
  · rcases Nat.lt_or_ge i m.length with hlt' | hge
    · -- the flipped bit lies in the payload
      rw [flipAt_append_left b m [Checksum m] i hlt']
      have hne : Checksum (flipAt m i b) ≠ Checksum m := by
        rw [Checksum_eq_sum, Checksum_eq_sum]
        rcases flipAt_sum b m i hlt' with h | h
        · have : m.sum = (flipAt m i b).sum + 2 ^ b := by omega
          rw [this]
          exact fun hq => checksum_sum_shift_ne (flipAt m i b).sum (2 ^ b) hpos hlt hq.symm
        · rw [h]
          exact checksum_sum_shift_ne m.sum (2 ^ b) hpos hlt
      simp [isValidChecksum, List.getLast?_concat, List.dropLast_concat]
      exact fun hq => hne hq.symm
    · -- the flipped bit lies in the checksum byte
      have hieq : i = m.length := by omega
      subst hieq
      rw [flipAt_append_last]
      simp [isValidChecksum, List.getLast?_concat, List.dropLast_concat]
      exact flipBit_ne b (Checksum m)

/-- Witness for C1 at `m = [1, 2]`, flipping bit 0 of byte 0. -/
theorem checksum_append_valid_flip_invalid_witness :
    isValidChecksum ([1, 2] ++ [Checksum [1, 2]]) = true ∧
    isValidChecksum (flipAt ([1, 2] ++ [Checksum [1, 2]]) 0 0) = false :=
  checksum_append_valid_flip_invalid [1, 2] 0 0 (by norm_num) (by norm_num)

/-- One hexadecimal digit, as decoded by Go `encoding/hex`
(digits, lower-case and upper-case letters). -/
def hexDigit (c : Char) : Option Nat :=
  if '0' ≤ c ∧ c ≤ '9' then some (c.toNat - 48)
  else if 'a' ≤ c ∧ c ≤ 'f' then some (c.toNat - 97 + 10)
  else if 'A' ≤ c ∧ c ≤ 'F' then some (c.toNat - 65 + 10)
  else none

/-- Go `hex.DecodeString`: pairs of hex digits become bytes
(high digit first); odd length or a non-hex character is an error. -/
def hexDecode : List Char → Option (List Nat)
  | [] => some []
  | [_] => none
  | a :: b :: rest =>
    match hexDigit a, hexDigit b, hexDecode rest with
    | some x, some y, some l => some ((16 * x + y) :: l)
    | _, _, _ => none

/-- The error cases of decoding a `PU` message report
(`serve`, upb.go lines 126-143). -/
inductive DecErr
  | malformedHex
  | shortMessage
  | checksumMismatch
deriving DecidableEq

/-- Decoding and validation of a `PU` message report payload, embedding
upb.go lines 127-143 of `serve`: hex-decode, reject fewer than 7 bytes,
reject a trailing byte that differs from the checksum of the preceding
bytes, and otherwise strip the checksum byte. The length-field
comparison at line 136 is log-only and does not affect the result. -/
def decodeReport (s : List Char) : Except DecErr (List Nat) :=
  match hexDecode s with
  | none => Except.error DecErr.malformedHex
  | some msg =>
    if msg.length < 7 then Except.error DecErr.shortMessage
    else if Checksum msg.dropLast ≠ msg.getLastD 0 then Except.error DecErr.checksumMismatch
    else Except.ok msg.dropLast

/-- The length-field consistency check of upb.go line 136
(`int(msg[0]&0x1f) != len(msg)`); a failure is only logged. -/
def lengthFieldConsistent (msg : List Nat) : Bool :=
  msg.headD 0 &&& 0x1f == msg.length

/-- What the `'U'` branch of `serve` (upb.go lines 126-148) hands to the
message-report sink `c.rx`: `none` when the report is discarded, and
`some m` when the stripped message `m` is delivered. Reports whose
retransmit-counter bits (low two bits of the control byte) are non-zero
are discarded (line 144). -/
def handlePU (s : List Char) : Option (List Nat) :=
  match decodeReport s with
  | Except.error _ => none
  | Except.ok msg => if msg.getD 1 0 &&& 0x03 ≠ 0 then none else some msg

/-- One upper-case hexadecimal digit, as printed by Go `fmt` verb `%X`. -/
def hexChar (n : Nat) : Char :=
  if n < 10 then Char.ofNat (48 + n) else Char.ofNat (55 + n)

/-- A byte as two upper-case hexadecimal digits (Go `%02X` of a byte). -/
def hexPair (n : Nat) : List Char :=
  [hexChar (n / 16 % 16), hexChar (n % 16)]

/-- `txUPB` from upb.go (lines 71-75): the wire text written for one
transmission, `fmt.Fprintf(port, "%c%02X%02X\r", TXUPB, msg, Checksum(msg))`
with `TXUPB = 0x14`: the literal op-code character, each message byte in
upper-case hex, the checksum byte in upper-case hex, then CR. -/
def txUPB (msg : List Nat) : List Char :=
  Char.ofNat 0x14 :: ((msg.map hexPair).flatten ++ hexPair (Checksum msg) ++ ['\r'])

/-- `Conn.Message` from upb.go (lines 183-193): the 6-byte packet header
(LEN, control 0x10, network, destination, source 0xFF, command)
followed by the arguments. The Go conversion `byte(6+len(args)+1)`
truncates the length to 8 bits. -/
def Message (net addr cmd : Nat) (args : List Nat) : List Nat :=
  (6 + args.length + 1) % 256 :: 0x10 :: net :: addr :: 0xFF :: cmd :: args

/-- Index of the first CR in the buffered data
(`bytes.IndexByte(data, '\r')` of upb.go line 220). -/
def indexOfCR : List Char → Option Nat
  | [] => none
  | c :: rest => if c = '\r' then some 0 else (indexOfCR rest).map (· + 1)

/-- `scanMessage` from upb.go (lines 219-230), the `bufio.SplitFunc` of the
framer: returns (bytes consumed, token produced, truncated-error flag). -/
def scanMessage (data : List Char) (atEOF : Bool) : Nat × Option (List Char) × Bool :=
  match indexOfCR data with
  | some i => (i + 1, some (data.take i), false)
  | none => if atEOF ∧ 0 < data.length then (data.length, none, true) else (0, none, false)

lemma hexFlatten_length (msg : List Nat) :
    ((msg.map hexPair).flatten).length = 2 * msg.length := by
  induction msg with
  | nil => rfl
  | cons v rest ih =>
    simp only [List.map_cons, List.flatten_cons, List.length_append, ih,
      hexPair, List.length_cons, List.length_nil]
    omega

lemma txUPB_eq_concat (msg : List Nat) :
    txUPB msg =
      (Char.ofNat 0x14 :: ((msg.map hexPair).flatten ++ hexPair (Checksum msg))) ++ ['\r'] := by
  simp [txUPB]

/-- C3. `decodeReport` fails with `malformedHex` on bad hex, with
`shortMessage` on fewer than 7 decoded bytes, with `checksumMismatch`
(and the report is then discarded, not delivered) when the trailing byte
differs from the checksum of the preceding bytes, and otherwise returns
the message with the checksum byte stripped; an inconsistent length
field does not cause rejection (final concrete clause: a 7-byte report
whose length field is wrong still decodes). -/
theorem decodeReport_spec :
    (∀ s : List Char, hexDecode s = none →
      decodeReport s = Except.error DecErr.malformedHex) ∧
    (∀ (s : List Char) (msg : List Nat), hexDecode s = some msg → msg.length < 7 →
      decodeReport s = Except.error DecErr.shortMessage) ∧
    (∀ (s : List Char) (msg : List Nat), hexDecode s = some msg → 7 ≤ msg.length →
      msg.getLastD 0 ≠ Checksum msg.dropLast →
      decodeReport s = Except.error DecErr.checksumMismatch ∧ handlePU s = none) ∧
    (∀ (s : List Char) (msg : List Nat), hexDecode s = some msg → 7 ≤ msg.length →
      msg.getLastD 0 = Checksum msg.dropLast →
      decodeReport s = Except.ok msg.dropLast) ∧
    (decodeReport (List.replicate 14 '0') = Except.ok [0, 0, 0, 0, 0, 0] ∧
      lengthFieldConsistent [0, 0, 0, 0, 0, 0, 0] = false) := by
  refine ⟨?_, ?_, ?_, ?_, rfl, by decide⟩
  · intro s h
    simp [decodeReport, h]
  · intro s msg h hlen
    simp [decodeReport, h, hlen]
  · intro s msg h hlen hne
    have h7 : ¬ msg.length < 7 := by omega
    rw [List.getLastD_eq_getLast?] at hne
    constructor
    · simp [decodeReport, h, h7, Ne.symm hne]
    · simp [handlePU, decodeReport, h, h7, Ne.symm hne]
  · intro s msg h hlen heq
    have h7 : ¬ msg.length < 7 := by omega
    rw [List.getLastD_eq_getLast?] at heq
    simp [decodeReport, h, h7, heq.symm]

/-- Witness for C3: the payload `"00"` decodes to one byte and is
rejected as a short message. -/
theorem decodeReport_spec_witness :
    decodeReport ['0', '0'] = Except.error DecErr.shortMessage :=
  decodeReport_spec.2.1 ['0', '0'] [0] (by decide) (by decide)

/-- C5 counterexample: with 249 arguments the Go conversion
`byte(6+len(args)+1)` wraps, so the LEN byte is 0, not 256. -/
theorem message_len_byte_overflow :
    (Message 0xB4 0x01 0x22 (List.replicate 249 0)).headD 0 ≠
      6 + (List.replicate 249 (0 : Nat)).length + 1 := by
  simp [Message]

/-- C5 (amended). `Message` with destination 0x01, command 0x22,
argument 0x64 under network 0xB4 is exactly
`[0x08, 0x10, 0xB4, 0x01, 0xFF, 0x22, 0x64]`, and in general the LEN
byte equals `(6 + argument count + 1) mod 256`. -/
theorem message_header_and_len (net addr cmd : Nat) (args : List Nat) :
    Message 0xB4 0x01 0x22 [0x64] = [0x08, 0x10, 0xB4, 0x01, 0xFF, 0x22, 0x64] ∧
    (Message net addr cmd args).headD 0 = (6 + args.length + 1) % 256 :=
  ⟨by decide, rfl⟩

/-- C6 counterexample: the checksum transmitted for the message bytes
`08 10 B4 01 FF 22 64` is not 0x97. -/
theorem tx_checksum_example_value :
    Checksum [0x08, 0x10, 0xB4, 0x01, 0xFF, 0x22, 0x64] ≠ 0x97 := by
  decide

/-- C6 (amended). The encoded transmission starts with the literal
op-code character 0x14, ends with CR, has exactly two upper-case hex
characters per message byte plus two for the checksum, and for the
message bytes `08 10 B4 01 FF 22 64` is the text `0810B401FF2264` with
checksum `AE` (not `97`). -/
theorem txUPB_wire_format (msg : List Nat) :
    (txUPB msg).headD ' ' = Char.ofNat 0x14 ∧
    (txUPB msg).getLast? = some '\r' ∧
    (txUPB msg).length = 2 * msg.length + 4 ∧
    txUPB [0x08, 0x10, 0xB4, 0x01, 0xFF, 0x22, 0x64] =
      [Char.ofNat 0x14, '0', '8', '1', '0', 'B', '4', '0', '1', 'F', 'F',
       '2', '2', '6', '4', 'A', 'E', '\r'] := by
  refine ⟨rfl, ?_, ?_, by decide⟩
  · rw [txUPB_eq_concat, List.getLast?_concat]
  · have h := hexFlatten_length msg
    simp only [txUPB, List.length_cons, List.length_append, h, hexPair, List.length_nil]

/-- A terminal outcome delivered to a waiting `Send` caller: `ok` is a
nil error, the others embed `errPIMBusy`, `errPIMError`, `errMissingAck`
and a `txUPB` write error (upb.go lines 115-125 and 154-156). -/
inductive Outcome
  | ok
  | pimBusy
  | pimError
  | missingAck
  | txFailed
deriving DecidableEq

/-- The `req` struct of upb.go (lines 167-170): the message bytes to
send, with the single-use response channel abstracted to a caller id. -/
structure Req where
  id : Nat
  msg : List Nat
deriving DecidableEq

/-- The observable state of the `serve` control loop (upb.go lines
77-159): `pending` is the submission-ordered queue of requests on
`c.wr`, `cur` is the Go local `rq` (the current outgoing request),
`txs` records every message handed to `txUPB` in order, `done` records
every response delivered in order, and `rxLog` records every message
handed to the message-report sink `c.rx` in order. -/
structure SState where
  pending : List Req
  cur : Option Req
  txs : List Req
  done : List (Nat × Outcome)
  rxLog : List (List Nat)
deriving DecidableEq

/-- An event consumed by the `select` of the serve loop: a frame token
arriving on `rd`, or the dequeue of a request from `c.wr` together with
whether the `txUPB` write succeeds. -/
inductive SEvent
  | frame (s : List Char)
  | deq (writeOk : Bool)
deriving DecidableEq

/-- Result of one `select` iteration: `blocked` when the `select` cannot
take the event (in Go a nil or empty channel case is simply not chosen),
`crash` when the Go code dereferences a nil pointer or indexes out of
range, and `next` for a normal iteration. -/
inductive StepOut
  | blocked
  | crash
  | next (st : SState)
deriving DecidableEq

/-- The `respond` closure of `serve` (upb.go lines 89-97): deliver the
outcome to the current request and set `rq = nil`. -/
def respond (st : SState) (r : Req) (out : Outcome) : SState :=
  { st with cur := none, done := st.done ++ [(r.id, out)] }

/-- One iteration of the `serve` loop (upb.go lines 99-158), translated
case by case: the `wr` channel is eligible in the `select` only when
`rq == nil` (lines 100-103); frames shorter than two characters or not
starting with `P` are skipped (line 109); `PA` is a no-op; `PB`, `PE`,
`PK` respond (a nil `rq` makes `respond` dereference nil: `crash`);
`PN` additionally reads `rq.msg[1]` first; `PU` runs the report pipeline
`handlePU` and appends any delivered message to the sink log; a failed
`txUPB` write on dequeue delivers the write error immediately. -/
def serveStep (st : SState) (e : SEvent) : StepOut :=
  match e with
  | SEvent.frame s =>
    match s with
    | p :: c :: rest =>
      if p ≠ 'P' then StepOut.next st
      else
        match c with
        | 'A' => StepOut.next st
        | 'B' =>
          match st.cur with
          | none => StepOut.crash
          | some r => StepOut.next (respond st r Outcome.pimBusy)
        | 'E' =>
          match st.cur with
          | none => StepOut.crash
          | some r => StepOut.next (respond st r Outcome.pimError)
        | 'K' =>
          match st.cur with
          | none => StepOut.crash
          | some r => StepOut.next (respond st r Outcome.ok)
        | 'N' =>
          match st.cur with
          | none => StepOut.crash
          | some r =>
            if 1 < r.msg.length then
              StepOut.next (respond st r
                (if r.msg.getD 1 0 &&& 0x10 ≠ 0 then Outcome.missingAck else Outcome.ok))
            else StepOut.crash
        | 'U' => StepOut.next { st with rxLog := st.rxLog ++ (handlePU rest).toList }
        | _ => StepOut.next st
    | _ => StepOut.next st
  | SEvent.deq writeOk =>
    match st.cur with
    | some _ => StepOut.blocked
    | none =>
      match st.pending with
      | [] => StepOut.blocked
      | r :: rest =>
        if writeOk then
          StepOut.next { st with pending := rest, cur := some r, txs := st.txs ++ [r] }
        else
          StepOut.next { st with pending := rest, cur := none, txs := st.txs ++ [r], done := st.done ++ [(r.id, Outcome.txFailed)] }

/-- The serve loop starts Idle (`rq = nil`) with the submitted requests
queued and nothing transmitted, responded or dispatched. -/
def initState (q : List Req) : SState :=
  ⟨q, none, [], [], []⟩

/-- Run the serve loop over a sequence of events: a blocked event is not
taken (the `select` keeps waiting), a crash aborts the run. -/
def runEvents : SState → List SEvent → Option SState
  | st, [] => some st
  | st, e :: es =>
    match serveStep st e with
    | StepOut.next st2 => runEvents st2 es
    | StepOut.blocked => runEvents st es
    | StepOut.crash => none

lemma dropLast_getD_one (msg : List Nat) (h : 3 ≤ msg.length) :
    msg.dropLast[1]?.getD 0 = msg[1]?.getD 0 := by
  rw [List.getElem?_dropLast, if_pos (by omega)]

lemma handlePU_retransmit_discard (s : List Char) (msg : List Nat)
    (hdec : hexDecode s = some msg) (hbits : msg.getD 1 0 &&& 0x03 ≠ 0) :
    handlePU s = none := by
  rw [List.getD_eq_getElem?_getD] at hbits
  by_cases h7 : msg.length < 7
  · simp [handlePU, decodeReport, hdec, h7]
  · by_cases hsum : Checksum msg.dropLast = msg.getLast?.getD 0
    · have hd : msg.dropLast[1]?.getD 0 = msg[1]?.getD 0 := dropLast_getD_one msg (by omega)
      simp [handlePU, decodeReport, hdec, h7, hsum, hd, hbits]
    · simp [handlePU, decodeReport, hdec, h7, hsum]

lemma handlePU_delivers (s : List Char) (msg : List Nat)
    (hdec : hexDecode s = some msg) (hlen : 7 ≤ msg.length)
    (hsum : msg.getLastD 0 = Checksum msg.dropLast)
    (hbits : msg.getD 1 0 &&& 0x03 = 0) :
    handlePU s = some msg.dropLast := by
  have h7 : ¬ msg.length < 7 := by omega
  have hd : msg.dropLast[1]?.getD 0 = msg[1]?.getD 0 := dropLast_getD_one msg (by omega)
  rw [List.getLastD_eq_getLast?] at hsum
  rw [List.getD_eq_getElem?_getD] at hbits
  simp [handlePU, decodeReport, hdec, h7, hsum.symm, hd, hbits]

/-- C2. With a request outstanding (`rq = some r`), the serve loop maps
status frames exactly as specified: `PA` is a no-op, `PB` delivers the
busy error, `PE` the protocol error, `PK` success, and `PN` delivers
the missing-ack error precisely when bit 0x10 of the outgoing message's
control byte is set; after each of `PB`/`PE`/`PK`/`PN` the loop is
Idle again (`cur = none`). -/
theorem serve_status_mapping (st : SState) (r : Req)
    (hc : st.cur = some r) (hm : 1 < r.msg.length) :
    serveStep st (SEvent.frame ['P', 'A']) = StepOut.next st ∧
    serveStep st (SEvent.frame ['P', 'B']) =
      StepOut.next { st with cur := none, done := st.done ++ [(r.id, Outcome.pimBusy)] } ∧
    serveStep st (SEvent.frame ['P', 'E']) =
      StepOut.next { st with cur := none, done := st.done ++ [(r.id, Outcome.pimError)] } ∧
    serveStep st (SEvent.frame ['P', 'K']) =
      StepOut.next { st with cur := none, done := st.done ++ [(r.id, Outcome.ok)] } ∧
    serveStep st (SEvent.frame ['P', 'N']) =
      StepOut.next { st with cur := none, done := st.done ++ [(r.id, if r.msg.getD 1 0 &&& 0x10 ≠ 0 then Outcome.missingAck else Outcome.ok)] } := by
  refine ⟨?_, ?_, ?_, ?_, ?_⟩ <;> simp [serveStep, respond, hc, hm]

/-- Witness for C2: `PK` at a concrete awaiting state delivers success
and returns to Idle. -/
theorem serve_status_mapping_witness :
    serveStep ⟨[], some ⟨0, [8, 16, 180, 1, 255, 34, 100]⟩,
        [⟨0, [8, 16, 180, 1, 255, 34, 100]⟩], [], []⟩ (SEvent.frame ['P', 'K']) =
      StepOut.next ⟨[], none, [⟨0, [8, 16, 180, 1, 255, 34, 100]⟩], [(0, Outcome.ok)], []⟩ :=
  (serve_status_mapping _ ⟨0, [8, 16, 180, 1, 255, 34, 100]⟩ rfl (by norm_num)).2.2.2.1

/-- C10. With no request outstanding (`rq = nil`), a `PB`, `PE`, `PK` or
`PN` status frame reaches `respond` (for `PN`, the read of `rq.msg[1]`)
with a nil request: the loop crashes instead of logging and discarding
the frame. -/
theorem idle_status_frame_crashes (st : SState) (hc : st.cur = none) :
    serveStep st (SEvent.frame ['P', 'B']) = StepOut.crash ∧
    serveStep st (SEvent.frame ['P', 'E']) = StepOut.crash ∧
    serveStep st (SEvent.frame ['P', 'K']) = StepOut.crash ∧
    serveStep st (SEvent.frame ['P', 'N']) = StepOut.crash := by
  refine ⟨?_, ?_, ?_, ?_⟩ <;> simp [serveStep, hc]

/-- Witness for C10: a `PK` frame in the initial (Idle) state crashes
the loop. -/
theorem idle_status_frame_crashes_witness :
    serveStep (initState []) (SEvent.frame ['P', 'K']) = StepOut.crash :=
  (idle_status_frame_crashes (initState []) rfl).2.2.1

/-- C4. A `PU` report whose decoded control byte has non-zero
retransmit-counter bits never reaches the message-report sink (the state,
including the sink log, is unchanged); one with zero retransmit bits and
a valid checksum reaches the sink exactly once, with the checksum byte
stripped (exactly one entry is appended to the sink log). -/
theorem report_sink_dispatch (st : SState) (s : List Char) (msg : List Nat)
    (hdec : hexDecode s = some msg) :
    (msg.getD 1 0 &&& 0x03 ≠ 0 →
      serveStep st (SEvent.frame ('P' :: 'U' :: s)) = StepOut.next st) ∧
    (7 ≤ msg.length → msg.getLastD 0 = Checksum msg.dropLast →
      msg.getD 1 0 &&& 0x03 = 0 →
      serveStep st (SEvent.frame ('P' :: 'U' :: s)) =
        StepOut.next { st with rxLog := st.rxLog ++ [msg.dropLast] }) := by
  constructor
  · intro hbits
    simp [serveStep, handlePU_retransmit_discard s msg hdec hbits]
  · intro hlen hsum hbits
    simp [serveStep, handlePU_delivers s msg hdec hlen hsum hbits]

/-- Witness for C4: the valid zero-retransmit report `07 00 00 00 00 00 F9`
is delivered once with its checksum byte stripped. -/
theorem report_sink_dispatch_witness :
    serveStep (initState [])
        (SEvent.frame ('P' :: 'U' ::
          ['0', '7', '0', '0', '0', '0', '0', '0', '0', '0', '0', '0', 'F', '9'])) =
      StepOut.next ⟨[], none, [], [], [[7, 0, 0, 0, 0, 0]]⟩ :=
  (report_sink_dispatch (initState [])
      ['0', '7', '0', '0', '0', '0', '0', '0', '0', '0', '0', '0', 'F', '9']
      [7, 0, 0, 0, 0, 0, 249] (by decide)).2 (by decide) (by decide) (by decide)

/-- Modelled from the spec and the Go language semantics of upb.go lines
172-181: `Close` executes `close(c.wr)` on the request channel, and a
subsequent `Send` executes `c.wr <- &req{...}`; in Go, a send on a
closed channel panics the sending goroutine. -/
structure WrChan where
  closed : Bool
deriving DecidableEq

/-- Outcome of the channel send performed by `Conn.Send`. -/
inductive SendOutcome
  | enqueued
  | crash
deriving DecidableEq

/-- `Conn.Close` (upb.go lines 172-175): closes the `wr` channel. -/
def CloseConn (ch : WrChan) : WrChan :=
  { ch with closed := true }

/-- `Conn.Send` (upb.go lines 177-181): performs a channel send of the
request on `wr`; by Go semantics this panics when the channel is
closed, and otherwise hands the request to the serve loop. -/
def Send (ch : WrChan) : SendOutcome :=
  if ch.closed then SendOutcome.crash else SendOutcome.enqueued

/-- C8 (code bug). A `Send` issued after `Close` does not return a
Closed error: it performs a send on a closed channel, which panics. -/
theorem send_after_close_crashes (ch : WrChan) :
    Send (CloseConn ch) = SendOutcome.crash :=
  rfl

/-- The FIFO / single-in-flight invariant of the serve loop: the
transmitted requests followed by the still-queued ones are exactly the
submitted queue in order, and the transmitted ids are exactly the
responded ids followed by the current request, so at most one request is
outstanding and every response goes to the request whose transmission
produced it. -/
def serveInv (q : List Req) (st : SState) : Prop :=
  st.txs ++ st.pending = q ∧
  st.txs.map Req.id = st.done.map Prod.fst ++ (st.cur.map Req.id).toList

lemma respond_inv (q : List Req) (st : SState) (r : Req) (out : Outcome)
    (hinv : serveInv q st) (hc : st.cur = some r) :
    serveInv q (respond st r out) := by
  obtain ⟨h1, h2⟩ := hinv
  refine ⟨h1, ?_⟩
  rw [hc] at h2
  simp only [respond, List.map_append] at h2 ⊢
  simpa using h2

lemma serveStep_preserves_inv (q : List Req) (st st2 : SState) (e : SEvent)
    (hinv : serveInv q st) (hstep : serveStep st e = StepOut.next st2) :
    serveInv q st2 := by
  obtain ⟨h1, h2⟩ := hinv
  cases e with
  | frame s =>
    simp only [serveStep] at hstep
    repeat' split at hstep
    all_goals try exact StepOut.noConfusion hstep
    all_goals injection hstep with hx
    all_goals subst hx
    all_goals first
      | exact ⟨h1, h2⟩
      | exact respond_inv q st _ _ ⟨h1, h2⟩ (by assumption)
  | deq writeOk =>
    cases hc : st.cur with
    | some r => simp [serveStep, hc] at hstep
    | none =>
      cases hp : st.pending with
      | nil => simp [serveStep, hc, hp] at hstep
      | cons r rest =>
        rw [hp] at h1
        rw [hc] at h2
        simp at h2
        cases writeOk with
        | true =>
          simp [serveStep, hc, hp] at hstep
          subst hstep
          refine ⟨?_, ?_⟩
          · rw [List.append_assoc]
            simpa using h1
          · simp [h2]
        | false =>
          simp [serveStep, hc, hp] at hstep
          subst hstep
          refine ⟨?_, ?_⟩
          · rw [List.append_assoc]
            simpa using h1
          · simp [h2]

lemma runEvents_inv (q : List Req) :
    ∀ (evs : List SEvent) (st st2 : SState),
      serveInv q st → runEvents st evs = some st2 → serveInv q st2 := by
  intro evs
  induction evs with
  | nil =>
    intro st st2 hinv h
    simp [runEvents] at h
    subst h
    exact hinv
  | cons e es ih =>
    intro st st2 hinv h
    rw [runEvents] at h
    cases hs : serveStep st e with
    | next st3 =>
      rw [hs] at h
      exact ih st3 st2 (serveStep_preserves_inv q st st3 e hinv hs) h
    | blocked =>
      rw [hs] at h
      exact ih st st2 hinv h
    | crash =>
      rw [hs] at h
      simp at h

/-- C9. In every state reachable by the serve loop from an initial
submission queue `q`: the transmitted messages followed by the
still-pending ones are exactly `q` (transmissions happen one at a time,
strictly in submission order, because a request is dequeued only while
`rq = nil`), the transmitted ids equal the responded ids followed by the
current request's id (each response is delivered to the request whose
transmission produced it), and at most one transmitted request is
without a response (single in-flight). -/
theorem single_inflight_fifo (q : List Req) (evs : List SEvent) (st : SState)
    (h : runEvents (initState q) evs = some st) :
    st.txs ++ st.pending = q ∧
    st.txs.map Req.id = st.done.map Prod.fst ++ (st.cur.map Req.id).toList ∧
    st.done.length ≤ st.txs.length ∧
    st.txs.length ≤ st.done.length + 1 := by
  have hinv : serveInv q st := runEvents_inv q evs (initState q) st ⟨rfl, rfl⟩ h
  obtain ⟨h1, h2⟩ := hinv
  have hl := congrArg List.length h2
  simp only [List.length_map, List.length_append] at hl
  refine ⟨h1, h2, ?_, ?_⟩ <;>
    cases hcur : st.cur <;> rw [hcur] at hl <;> simp at hl <;> omega

/-- Witness for C9: two requests, the first transmitted and acknowledged
with `PK` before the second is dequeued. -/
theorem single_inflight_fifo_witness :
    (([⟨0, []⟩, ⟨1, []⟩] : List Req) = [⟨0, []⟩, ⟨1, []⟩]) ∧
    (([0, 1] : List Nat) = [0, 1]) ∧
    ((1 : Nat) ≤ 2) ∧
    ((2 : Nat) ≤ 2) :=
  single_inflight_fifo [⟨0, []⟩, ⟨1, []⟩]
    [SEvent.deq true, SEvent.frame ['P', 'K'], SEvent.deq true]
    ⟨[], some ⟨1, []⟩, [⟨0, []⟩, ⟨1, []⟩], [(0, Outcome.ok)], []⟩ rfl

/-- C7. The framer split function: on `"AB\rCD"` before end-of-stream it
produces frame `"AB"` consuming 3 bytes; on trailing `"EF"` at
end-of-stream it consumes the data, produces no frame and raises the
truncated error; on empty data at end-of-stream it ends cleanly. -/
theorem scanMessage_examples :
    scanMessage ['A', 'B', '\r', 'C', 'D'] false = (3, some ['A', 'B'], false) ∧
    scanMessage ['E', 'F'] true = (2, none, true) ∧
    scanMessage [] true = (0, none, false) := by
  refine ⟨by decide, by decide, by decide⟩

end Castle
